import Mathlib

/-!
Verification of the document-to-passage pipeline of a retrieval-augmented
policy-search application (`app.py`).

The pipeline is embedded shallowly:

* the external subword tokenizer (`tiktoken`) is a collaborator and is
  modelled by a pair of function parameters `enc : String → List Nat`
  (`enc.encode`) and `dec : List Nat → String` (`enc.decode`);
* Python's `str.strip()` is modelled by the executable `pyStrip`;
* the chunking `while` loop of `chunk_text` is not structurally
  terminating for degenerate configurations, exactly as in the source, so
  it is embedded with an explicit fuel parameter; `none` means the fuel
  was exhausted, and a loop that returns `none` for every fuel diverges;
* the vector store (`chromadb`) is a collaborator and is modelled as a
  name-indexed association list of passage lists, with the operation
  contracts described in the specification (`delete_collection` raises
  when the collection does not exist; `get_or_create_collection` creates
  an empty collection when absent; `add` appends);
* the embedding and generation providers are function parameters.
-/

/-- Python `str.strip()`: remove leading and trailing whitespace.
Defined over the character list so that it is kernel-computable. -/
def pyStrip (s : String) : String :=
  ⟨((s.data.dropWhile Char.isWhitespace).reverse.dropWhile Char.isWhitespace).reverse⟩

/-! ### Configuration constants (section 3 of `app.py`) -/

/-- `CHUNK_TOKENS = 700` -/
def CHUNK_TOKENS : Nat := 700

/-- `CHUNK_OVERLAP = 120` -/
def CHUNK_OVERLAP : Nat := 120

/-- `DEFAULT_TOP_K = 5` -/
def DEFAULT_TOP_K : Nat := 5

/-- `COLLECTION_NAME = "ntt_policy_rag"` -/
def COLLECTION_NAME : String := "ntt_policy_rag"

/-! ### Token-based chunking (section 5 of `app.py`)

```
def chunk_text(text, chunk_tokens, overlap):
    tokens = enc.encode(text)
    chunks = []
    start = 0
    while start < len(tokens):
        end = min(start + chunk_tokens, len(tokens))
        chunk = enc.decode(tokens[start:end]).strip()
        if chunk:
            chunks.append(chunk)
        start = end - overlap
        if start < 0:
            start = 0
        if end == len(tokens):
            break
    return chunks
```

`start`, `chunk_tokens` and `overlap` are embedded as `Nat`: the loop
starts from 0 and the clamp `if start < 0: start = 0` makes the updated
`start` exactly the truncated subtraction `end - overlap`, so for the
non-negative parameter range quantified over by every claim the `Nat`
embedding agrees with Python's unbounded integers. -/

/-- One chunk string of the loop: decode of the token window
`tokens[sp.1 : sp.2]`, stripped. -/
def windowChunk (dec : List Nat → String) (tokens : List Nat) (sp : Nat × Nat) : String :=
  pyStrip (dec ((tokens.drop sp.1).take (sp.2 - sp.1)))

/-- The body of `chunk_text`'s `while` loop, with fuel. `none` means the
fuel ran out before the loop finished. -/
def chunkTextLoop (dec : List Nat → String) (tokens : List Nat) (chunk_tokens overlap : Nat) :
    Nat → Nat → List String → Option (List String)
  | 0, _, _ => none
  | fuel + 1, start, chunks =>
    if start < tokens.length then
      let e := min (start + chunk_tokens) tokens.length
      let chunk := windowChunk dec tokens (start, e)
      let chunks2 := if chunk = "" then chunks else chunks ++ [chunk]
      if e = tokens.length then some chunks2
      else chunkTextLoop dec tokens chunk_tokens overlap fuel (e - overlap) chunks2
    else some chunks

/-- The same loop, recording the `(start, end)` token window of every
iteration instead of the decoded chunk strings (the specification's
"token offsets"; empty post-strip windows are dropped from `chunk_text`'s
output without affecting this offset arithmetic). -/
def chunkSpans (len chunk_tokens overlap : Nat) :
    Nat → Nat → List (Nat × Nat) → Option (List (Nat × Nat))
  | 0, _, _ => none
  | fuel + 1, start, spans =>
    if start < len then
      let e := min (start + chunk_tokens) len
      let spans2 := spans ++ [(start, e)]
      if e = len then some spans2
      else chunkSpans len chunk_tokens overlap fuel (e - overlap) spans2
    else some spans

/-- `chunk_text`. The loop is run with fuel `len(tokens) + 1`, which is
proved sufficient for every configuration with `overlap < chunk_tokens`
(`chunkTextLoop_isSome`); when the fuel runs out — which happens exactly
when the source's loop diverges — the junk value `[]` is returned. -/
def chunk_text (dec : List Nat → String) (enc : String → List Nat)
    (text : String) (chunk_tokens overlap : Nat) : List String :=
  let tokens := enc text
  (chunkTextLoop dec tokens chunk_tokens overlap (tokens.length + 1) 0 []).getD []

/-- A page as produced by `load_pdfs`. -/
structure Page where
  text : String
  source : String
  path : String
  page : Nat
deriving DecidableEq

/-- A chunk record as produced by `make_chunks`. -/
structure Chunk where
  chunk : String
  source : String
  path : String
  page : Nat
  chunk_id : String
deriving DecidableEq

/-- The chunk-id format string of `make_chunks`:
`f'[source]:p[page]:c[index]'`. -/
def chunkId (source : String) (page idx : Nat) : String :=
  source ++ ":p" ++ Nat.repr page ++ ":c" ++ Nat.repr idx

/-- `make_chunks` (section 5 of `app.py`): every page is chunked with the
global configuration and each chunk is annotated with provenance and its
`chunk_id`. -/
def make_chunks (dec : List Nat → String) (enc : String → List Nat)
    (pages : List Page) : List Chunk :=
  pages.flatMap fun p =>
    (chunk_text dec enc p.text CHUNK_TOKENS CHUNK_OVERLAP).enum.map fun ic =>
      { chunk := ic.2
        source := p.source
        path := p.path
        page := p.page
        chunk_id := chunkId p.source p.page ic.1 }

/-! ### Loading PDFs (section 4 of `app.py`) -/

/-- A PDF file as found by `folder.rglob("*.pdf")`: its file name
(`pdf_path.name`), its full path (`str(pdf_path)`) and the text extracted
from each of its pages (`page.extract_text() or ""`). -/
structure PdfFile where
  name : String
  path : String
  pages : List String
deriving DecidableEq

/-- Errors surfaced by the pipeline. `noPdfsFound` is the
`FileNotFoundError` raised by `load_pdfs` when the recursive glob finds
no PDF files. -/
inductive AppErr
  | noPdfsFound
deriving DecidableEq

/-- `load_pdfs`: raise when no PDF files are found, otherwise collect one
`Page` per non-empty (post-strip) page text, numbering pages from 1
within each file. -/
def load_pdfs (files : List PdfFile) : Except AppErr (List Page) :=
  if files = [] then .error .noPdfsFound
  else .ok (files.flatMap fun f =>
    f.pages.enum.filterMap fun it =>
      let text := pyStrip it.2
      if text = "" then none
      else some { text := text, source := f.name, path := f.path, page := it.1 + 1 })

/-! ### The vector store and `get_collection` (sections 6 and 7 of `app.py`) -/

/-- An indexed passage: one entry of `collection.add(ids=…, documents=…,
metadatas=…)` — the id, the document text and the metadata fields. -/
structure Passage where
  id : String
  doc : String
  source : String
  path : String
  page : Nat
deriving DecidableEq

/-- Errors raised by store operations. `notFound` is the error
`delete_collection` raises for a non-existent collection; `unavailable`
stands for any other failure of the operation (store unreachable, …). -/
inductive StoreErr
  | notFound
  | unavailable
deriving DecidableEq

/-- The state of the vector store: the named collections with their
passages, plus a fault-injection flag making `delete_collection` fail
with a non-`notFound` error. -/
structure Store where
  colls : List (String × List Passage)
  deleteRaises : Bool
deriving DecidableEq

/-- Contents of a named collection, if it exists. -/
def Store.find (s : Store) (name : String) : Option (List Passage) :=
  s.colls.lookup name

/-- Set (insert or replace) the contents of a named collection in the
association list. -/
def setAssoc (name : String) (ps : List Passage) :
    List (String × List Passage) → List (String × List Passage)
  | [] => [(name, ps)]
  | (m, qs) :: t => if m = name then (name, ps) :: t else (m, qs) :: setAssoc name ps t

/-- Set (insert or replace) the contents of a named collection. -/
def Store.set (s : Store) (name : String) (ps : List Passage) : Store :=
  { s with colls := setAssoc name ps s.colls }

/-- Remove a named collection. -/
def removeAssoc (name : String) :
    List (String × List Passage) → List (String × List Passage)
  | [] => []
  | (m, qs) :: t => if m = name then t else (m, qs) :: removeAssoc name t

/-- `chroma_client.delete_collection(name=…)`: fails with `unavailable`
when the injected fault is armed, fails with `notFound` when the
collection does not exist, otherwise removes it. -/
def delete_collection (s : Store) (name : String) : Except StoreErr Store :=
  if s.deleteRaises then .error .unavailable
  else match s.find name with
    | some _ => .ok { s with colls := removeAssoc name s.colls }
    | none => .error .notFound

/-- `chroma_client.get_or_create_collection(name=…)`: create the
collection empty when absent, otherwise leave the store unchanged. -/
def get_or_create_collection (s : Store) (name : String) : Store :=
  if (s.find name).isSome then s else s.set name []

/-- The observable operations `get_collection` performs while populating
the index: loading the documents, chunking them, and each batched
`collection.add` call (with the batch size). -/
inductive Event
  | load
  | chunk
  | addBatch (n : Nat)
deriving DecidableEq

deriving instance DecidableEq for Except

/-- The batched `collection.add` loop of `get_collection`:
`for i in range(0, len(ids), BATCH): collection.add(…)` with
`BATCH = 256`. Each call appends its slice of the passages to the named
collection. -/
def addBatches (s : Store) (name : String) (items : List Passage) : Store × List Event :=
  if h : items = [] then (s, [])
  else
    let s2 := s.set name (((s.find name).getD []) ++ items.take 256)
    let r := addBatches s2 name (items.drop 256)
    (r.1, Event.addBatch (items.take 256).length :: r.2)
termination_by items.length
decreasing_by simp [List.length_drop]; exact List.length_pos.mpr h

/-- The outcome of one `get_collection` call: the final store state, the
indexing operations performed, and either the raised error or the
contents of the returned collection. -/
structure RunResult where
  store : Store
  events : List Event
  result : Except AppErr (List Passage)
deriving DecidableEq

/-- `get_collection(rebuild)` (section 7 of `app.py`):

```
if rebuild:
    try: chroma_client.delete_collection(name=COLLECTION_NAME)
    except Exception: pass  # ok if collection didn't exist
collection = chroma_client.get_or_create_collection(name=COLLECTION_NAME, …)
if collection.count() == 0:
    pages = load_pdfs(DATA_DIR)
    chunks = make_chunks(pages)
    ids = …; docs = …; metas = …
    BATCH = 256
    for i in range(0, len(ids), BATCH):
        collection.add(ids=…, documents=…, metadatas=…)
return collection
```

The corpus folder is the `files` argument; the embedding provider is
implicit in the store's `add` (as in the source, where the collection
owns the embedding function). -/
def get_collection (dec : List Nat → String) (enc : String → List Nat)
    (files : List PdfFile) (s0 : Store) (rebuild : Bool) : RunResult :=
  let s1 := if rebuild then
      match delete_collection s0 COLLECTION_NAME with
      | .ok s2 => s2
      | .error _ => s0
    else s0
  let s2 := get_or_create_collection s1 COLLECTION_NAME
  let cur := (s2.find COLLECTION_NAME).getD []
  if cur.length = 0 then
    match load_pdfs files with
    | .error e => { store := s2, events := [.load], result := .error e }
    | .ok pages =>
      let chunks := make_chunks dec enc pages
      let items := chunks.map fun c =>
        { id := c.chunk_id, doc := c.chunk, source := c.source, path := c.path, page := c.page }
      let r := addBatches s2 COLLECTION_NAME items
      { store := r.1
        events := Event.load :: Event.chunk :: r.2
        result := .ok ((r.1.find COLLECTION_NAME).getD []) }
  else { store := s2, events := [], result := .ok cur }

/-! ### The batching embedder (section 6 of `app.py`)

```
class OpenAIEmbedder(EmbeddingFunction):
    def __init__(self, client, model, batch_size=64):
        …
    def __call__(self, texts):
        embeddings = []
        for i in range(0, len(texts), self.batch_size):
            batch = texts[i:i+self.batch_size]
            resp = self.client.embeddings.create(model=self.model, input=batch)
            embeddings.extend([item.embedding for item in resp.data])
        return embeddings
```
-/

/-- The `__call__` loop of `OpenAIEmbedder`: `create` is the provider
call `self.client.embeddings.create` returning the vector for each text
of the batch; `batch_size` steps the loop. A `batch_size` of 0 makes
Python's `range` raise, so that branch (never reached by any theorem
below) returns the junk value `[]`. -/
def embedderCall (create : List String → List α) (batch_size : Nat)
    (texts : List String) : List α :=
  if h : texts = [] ∨ batch_size = 0 then []
  else
    create (texts.take batch_size) ++
      embedderCall create batch_size (texts.drop batch_size)
termination_by texts.length
decreasing_by
  simp [List.length_drop]
  push_neg at h
  exact ⟨List.length_pos.mpr h.1, Nat.pos_of_ne_zero h.2⟩

/-- The contiguous batch partition `texts[0:bs], texts[bs:2*bs], …` that
the `__call__` loop reads (`batch = texts[i:i+self.batch_size]`). -/
def sliceBatches (batch_size : Nat) (texts : List String) : List (List String) :=
  if h : texts = [] ∨ batch_size = 0 then []
  else texts.take batch_size :: sliceBatches batch_size (texts.drop batch_size)
termination_by texts.length
decreasing_by
  simp [List.length_drop]
  push_neg at h
  exact ⟨List.length_pos.mpr h.1, Nat.pos_of_ne_zero h.2⟩

/-! ### Lemmas about the chunking loop -/

/-- Unfolding equation for one iteration of `chunkTextLoop`. -/
theorem chunkTextLoop_succ (dec : List Nat → String) (tokens : List Nat)
    (ct ov fuel start : Nat) (chunks : List String) :
    chunkTextLoop dec tokens ct ov (fuel + 1) start chunks =
      if start < tokens.length then
        let e := min (start + ct) tokens.length
        let chunk := windowChunk dec tokens (start, e)
        let chunks2 := if chunk = "" then chunks else chunks ++ [chunk]
        if e = tokens.length then some chunks2
        else chunkTextLoop dec tokens ct ov fuel (e - ov) chunks2
      else some chunks := rfl

/-- Unfolding equation for one iteration of `chunkSpans`. -/
theorem chunkSpans_succ (len ct ov fuel start : Nat) (spans : List (Nat × Nat)) :
    chunkSpans len ct ov (fuel + 1) start spans =
      if start < len then
        let e := min (start + ct) len
        let spans2 := spans ++ [(start, e)]
        if e = len then some spans2
        else chunkSpans len ct ov fuel (e - ov) spans2
      else some spans := rfl

/-- For a valid configuration (`0 < chunk_tokens`, `overlap <
chunk_tokens`) the loop finishes within `len(tokens) - start` further
iterations: with that much fuel it never returns `none`. -/
theorem chunkTextLoop_isSome (dec : List Nat → String) (tokens : List Nat) (ct ov : Nat)
    (hov : ov < ct) :
    ∀ fuel start chunks, tokens.length - start < fuel →
      (chunkTextLoop dec tokens ct ov fuel start chunks).isSome = true := by
  intro fuel
  induction fuel with
  | zero => intro start chunks h; omega
  | succ fuel ih =>
    intro start chunks h
    rw [chunkTextLoop_succ]
    by_cases hs : start < tokens.length
    · simp only [hs, if_true]
      by_cases he : min (start + ct) tokens.length = tokens.length
      · simp [he]
      · simp only [he, if_false]
        exact ih _ _ (by omega)
    · simp [hs]

/-- The string loop is the span loop followed by decoding, stripping and
dropping the empty results: its accumulating state is the image of the
span state under `windowChunk` and the non-emptiness filter. -/
theorem chunkTextLoop_eq_spans (dec : List Nat → String) (tokens : List Nat) (ct ov : Nat) :
    ∀ fuel start spans,
      chunkTextLoop dec tokens ct ov fuel start
          ((spans.map (windowChunk dec tokens)).filter (fun c => !(c == ""))) =
        (chunkSpans tokens.length ct ov fuel start spans).map
          (fun S => (S.map (windowChunk dec tokens)).filter (fun c => !(c == ""))) := by
  intro fuel
  induction fuel with
  | zero => intro start spans; rfl
  | succ fuel ih =>
    intro start spans
    rw [chunkTextLoop_succ, chunkSpans_succ]
    by_cases hs : start < tokens.length
    · simp only [hs, if_true]
      have hstep :
          (((spans ++ [(start, min (start + ct) tokens.length)]).map
              (windowChunk dec tokens)).filter (fun c => !(c == ""))) =
            (if windowChunk dec tokens (start, min (start + ct) tokens.length) = "" then
              ((spans.map (windowChunk dec tokens)).filter (fun c => !(c == "")))
            else
              ((spans.map (windowChunk dec tokens)).filter (fun c => !(c == ""))) ++
                [windowChunk dec tokens (start, min (start + ct) tokens.length)]) := by
        by_cases hw : windowChunk dec tokens (start, min (start + ct) tokens.length) = "" <;>
          simp [hw, List.filter_append]
      by_cases he : min (start + ct) tokens.length = tokens.length
      · rw [if_pos he, if_pos he, Option.map_some', hstep]
      · rw [if_neg he, if_neg he, ← hstep]
        exact ih _ _
    · simp [hs]

/-- Invariants of the span loop: in its result, every window has the form
`(start, min (start + chunk_tokens) len)`, and each window starts
`overlap` tokens before the previous window's end (`Chain'` of the
advance relation `b.start = a.end - overlap`). -/
theorem chunkSpans_invariant (len ct ov : Nat) :
    ∀ fuel start spans S,
      chunkSpans len ct ov fuel start spans = some S →
      List.Chain' (fun a b : Nat × Nat => b.1 = a.2 - ov) spans →
      (∀ last, spans.getLast? = some last → start = last.2 - ov) →
      (∀ sp ∈ spans, sp.2 = min (sp.1 + ct) len) →
      List.Chain' (fun a b : Nat × Nat => b.1 = a.2 - ov) S ∧
        (∀ sp ∈ S, sp.2 = min (sp.1 + ct) len) := by
  intro fuel
  induction fuel with
  | zero => intro start spans S h; exact absurd h (by simp [chunkSpans])
  | succ fuel ih =>
    intro start spans S hrun hchain hlast hshape
    rw [chunkSpans_succ] at hrun
    by_cases hs : start < len
    · rw [if_pos hs] at hrun
      have hchain2 : List.Chain' (fun a b : Nat × Nat => b.1 = a.2 - ov)
          (spans ++ [(start, min (start + ct) len)]) := by
        rw [List.chain'_append]
        refine ⟨hchain, List.chain'_singleton _, ?_⟩
        intro x hx y hy
        simp only [List.head?_cons, Option.mem_def, Option.some.injEq] at hy
        subst hy
        exact hlast x hx
      have hshape2 : ∀ sp ∈ spans ++ [(start, min (start + ct) len)],
          sp.2 = min (sp.1 + ct) len := by
        intro sp hsp
        rcases List.mem_append.mp hsp with h | h
        · exact hshape sp h
        · simp only [List.mem_singleton] at h
          subst h
          rfl
      by_cases he : min (start + ct) len = len
      · rw [if_pos he, Option.some.injEq] at hrun
        subst hrun
        exact ⟨hchain2, hshape2⟩
      · rw [if_neg he] at hrun
        exact ih _ _ _ hrun hchain2 (by simp) hshape2
    · rw [if_neg hs, Option.some.injEq] at hrun
      subst hrun
      exact ⟨hchain, hshape⟩

/-! ### Decimal representation lemmas, for `chunk_id` injectivity

`Nat.repr` is related to Mathlib's `Nat.digits`, giving that the decimal
representation consists of digit characters and is injective; a
cancellation lemma for a non-digit separator followed by digits then
makes the `chunk_id` format `source:p<page>:c<index>` injective in the
triple `(source, page, index)`. -/

/-- With enough fuel, `Nat.toDigitsCore` computes the (reversed, mapped
to characters) `Nat.digits` representation. -/
theorem toDigitsCore_eq_digits :
    ∀ fuel n (ds : List Char), n < fuel →
      Nat.toDigitsCore 10 fuel n ds =
        (if n = 0 then ['0'] else ((Nat.digits 10 n).reverse.map Nat.digitChar)) ++ ds := by
  intro fuel
  induction fuel with
  | zero => intro n ds h; omega
  | succ fuel ih =>
    intro n ds h
    simp only [Nat.toDigitsCore]
    by_cases h0 : n / 10 = 0
    · rw [if_pos h0]
      by_cases hn : n = 0
      · subst hn; rfl
      · rw [if_neg hn]
        have hlt : n < 10 := by
          by_contra hge
          push_neg at hge
          have := Nat.div_le_div_right (c := 10) hge
          simp at this
          omega
        rw [Nat.digits_def' (b := 10) (by norm_num) (Nat.pos_of_ne_zero hn), h0]
        simp [Nat.mod_eq_of_lt hlt]
    · rw [if_neg h0]
      have h10 : 10 ≤ n := by
        by_contra hge
        push_neg at hge
        exact h0 (Nat.div_eq_of_lt hge)
      have hdiv : n / 10 < n := Nat.div_lt_self (by omega) (by omega)
      have hn0 : n ≠ 0 := by omega
      rw [ih (n / 10) _ (by omega), if_neg h0, if_neg hn0,
        Nat.digits_def' (b := 10) (by norm_num) (Nat.pos_of_ne_zero hn0)]
      simp

/-- `Nat.toDigits 10` in terms of `Nat.digits`. -/
theorem toDigits_eq_digits (n : Nat) :
    Nat.toDigits 10 n =
      if n = 0 then ['0'] else ((Nat.digits 10 n).reverse.map Nat.digitChar) := by
  have h := toDigitsCore_eq_digits (n + 1) n [] (Nat.lt_succ_self n)
  simpa [Nat.toDigits] using h

/-- The characters of `Nat.repr` are `Nat.toDigits 10`. -/
theorem repr_data (n : Nat) : (Nat.repr n).data = Nat.toDigits 10 n := rfl

/-- `Nat.digitChar` sends digits below 10 to digit characters. -/
theorem digitChar_isDigit (d : Nat) (h : d < 10) : (Nat.digitChar d).isDigit = true := by
  interval_cases d <;> decide

/-- `Nat.digitChar` is injective below 10. -/
theorem digitChar_inj_lt (a b : Nat) (ha : a < 10) (hb : b < 10)
    (h : Nat.digitChar a = Nat.digitChar b) : a = b := by
  interval_cases a <;> interval_cases b <;> revert h <;> decide

/-- Every character of the decimal representation of a natural number is
a digit character. -/
theorem repr_isDigit (n : Nat) : ∀ c ∈ (Nat.repr n).data, c.isDigit = true := by
  rw [repr_data, toDigits_eq_digits]
  by_cases hn : n = 0
  · rw [if_pos hn]
    intro c hc
    simp only [List.mem_singleton] at hc
    subst hc
    decide
  · rw [if_neg hn]
    intro c hc
    simp only [List.mem_map, List.mem_reverse] at hc
    obtain ⟨d, hd, rfl⟩ := hc
    exact digitChar_isDigit d (Nat.digits_lt_base (by norm_num) hd)

/-- Mapping `Nat.digitChar` over lists of digits below 10 is injective. -/
theorem map_digitChar_inj :
    ∀ (l1 l2 : List Nat), (∀ x ∈ l1, x < 10) → (∀ x ∈ l2, x < 10) →
      l1.map Nat.digitChar = l2.map Nat.digitChar → l1 = l2 := by
  intro l1
  induction l1 with
  | nil =>
    intro l2 _ _ h
    cases l2 with
    | nil => rfl
    | cons b u => simp at h
  | cons a t ih =>
    intro l2 h1 h2 h
    cases l2 with
    | nil => simp at h
    | cons b u =>
      simp only [List.map_cons, List.cons.injEq] at h
      have hab : a = b :=
        digitChar_inj_lt a b (h1 a (by simp)) (h2 b (by simp)) h.1
      subst hab
      rw [ih u (fun x hx => h1 x (by simp [hx])) (fun x hx => h2 x (by simp [hx])) h.2]

/-- The decimal representation `Nat.repr` is injective. -/
theorem repr_inj (m n : Nat) (h : Nat.repr m = Nat.repr n) : m = n := by
  have hd : Nat.toDigits 10 m = Nat.toDigits 10 n := by
    rw [← repr_data, ← repr_data, h]
  rw [toDigits_eq_digits, toDigits_eq_digits] at hd
  by_cases hm : m = 0 <;> by_cases hn : n = 0
  · omega
  · exfalso
    rw [if_pos hm, if_neg hn] at hd
    have hlen : ((Nat.digits 10 n).reverse.map Nat.digitChar).length = 1 := by
      rw [← hd]; rfl
    simp only [List.length_map, List.length_reverse] at hlen
    obtain ⟨d, hdig⟩ := List.length_eq_one.mp hlen
    rw [hdig] at hd
    simp only [List.reverse_singleton, List.map_cons, List.map_nil] at hd
    have hdc : Nat.digitChar d = '0' := by
      have := hd.symm
      simp only [List.cons.injEq] at this
      exact this.1
    have hd10 : d < 10 :=
      Nat.digits_lt_base (by norm_num) (by rw [hdig]; exact List.mem_singleton_self d)
    have hdn : d = n := by
      have hof := Nat.ofDigits_digits 10 n
      rw [hdig, Nat.ofDigits_singleton] at hof
      exact_mod_cast hof
    have hdne : d ≠ 0 := by rw [hdn]; exact hn
    interval_cases d <;> revert hdc hdne <;> decide
  · exfalso
    rw [if_neg hm, if_pos hn] at hd
    have hlen : ((Nat.digits 10 m).reverse.map Nat.digitChar).length = 1 := by
      rw [hd]; rfl
    simp only [List.length_map, List.length_reverse] at hlen
    obtain ⟨d, hdig⟩ := List.length_eq_one.mp hlen
    rw [hdig] at hd
    simp only [List.reverse_singleton, List.map_cons, List.map_nil] at hd
    have hdc : Nat.digitChar d = '0' := by
      simp only [List.cons.injEq] at hd
      exact hd.1
    have hd10 : d < 10 :=
      Nat.digits_lt_base (by norm_num) (by rw [hdig]; exact List.mem_singleton_self d)
    have hdn : d = m := by
      have hof := Nat.ofDigits_digits 10 m
      rw [hdig, Nat.ofDigits_singleton] at hof
      exact_mod_cast hof
    have hdne : d ≠ 0 := by rw [hdn]; exact hm
    interval_cases d <;> revert hdc hdne <;> decide
  · rw [if_neg hm, if_neg hn] at hd
    have hdig : Nat.digits 10 m = Nat.digits 10 n := by
      have := map_digitChar_inj ((Nat.digits 10 m).reverse) ((Nat.digits 10 n).reverse)
        (fun x hx => Nat.digits_lt_base (by norm_num) (List.mem_reverse.mp hx))
        (fun x hx => Nat.digits_lt_base (by norm_num) (List.mem_reverse.mp hx)) hd
      exact List.reverse_injective this
    exact Nat.digits_inj_iff.mp hdig

/-- Cancellation after a non-digit separator: if two all-digit prefixes
are each followed by the same non-digit separator, equality of the whole
lists forces the prefixes (and the tails) to agree. -/
theorem digit_prefix_cancel (sep : Char) (hsep : sep.isDigit = false) :
    ∀ (ds es xs ys : List Char),
      (∀ c ∈ ds, c.isDigit = true) → (∀ c ∈ es, c.isDigit = true) →
      ds ++ sep :: xs = es ++ sep :: ys → ds = es ∧ xs = ys := by
  intro ds
  induction ds with
  | nil =>
    intro es xs ys _ hes h
    cases es with
    | nil => simpa using h
    | cons b u =>
      exfalso
      simp only [List.nil_append, List.cons_append, List.cons.injEq] at h
      have hb := hes b (by simp)
      rw [← h.1, hsep] at hb
      exact Bool.false_ne_true hb
  | cons a t ih =>
    intro es xs ys hds hes h
    cases es with
    | nil =>
      exfalso
      simp only [List.cons_append, List.nil_append, List.cons.injEq] at h
      have ha := hds a (by simp)
      rw [h.1, hsep] at ha
      exact Bool.false_ne_true ha
    | cons b u =>
      simp only [List.cons_append, List.cons.injEq] at h
      obtain ⟨hab, h2⟩ := h
      subst hab
      obtain ⟨h3, h4⟩ := ih u xs ys (fun c hc => hds c (by simp [hc]))
        (fun c hc => hes c (by simp [hc])) h2
      exact ⟨by rw [h3], h4⟩

/-- The `chunk_id` format `source:p<page>:c<index>` is injective in the
triple `(source, page, index)`: page number and chunk index are rendered
as digit-only strings, and the characters `p` and `c` right before them
are not digits, so the three components can be recovered from the id. -/
theorem chunkId_inj (s1 s2 : String) (p1 p2 i1 i2 : Nat)
    (h : chunkId s1 p1 i1 = chunkId s2 p2 i2) : s1 = s2 ∧ p1 = p2 ∧ i1 = i2 := by
  have hdata := congrArg String.data h
  simp only [chunkId, String.data_append] at hdata
  have hrev := congrArg List.reverse hdata
  simp only [List.reverse_append, List.reverse_cons, List.reverse_nil, List.nil_append,
    List.append_assoc, List.cons_append, List.singleton_append] at hrev
  have hdigits1 : ∀ c ∈ (Nat.repr i1).data.reverse, c.isDigit = true :=
    fun c hc => repr_isDigit i1 c (List.mem_reverse.mp hc)
  have hdigits2 : ∀ c ∈ (Nat.repr i2).data.reverse, c.isDigit = true :=
    fun c hc => repr_isDigit i2 c (List.mem_reverse.mp hc)
  obtain ⟨hi, hrest⟩ := digit_prefix_cancel 'c' (by decide)
    ((Nat.repr i1).data.reverse) ((Nat.repr i2).data.reverse) _ _ hdigits1 hdigits2 hrev
  have hii : i1 = i2 := by
    apply repr_inj
    apply congrArg List.asString (List.reverse_injective hi)
  simp only [List.cons.injEq, true_and] at hrest
  obtain ⟨hp, hrest2⟩ := digit_prefix_cancel 'p' (by decide)
    ((Nat.repr p1).data.reverse) ((Nat.repr p2).data.reverse) _ _
    (fun c hc => repr_isDigit p1 c (List.mem_reverse.mp hc))
    (fun c hc => repr_isDigit p2 c (List.mem_reverse.mp hc)) hrest
  have hpp : p1 = p2 := by
    apply repr_inj
    apply congrArg List.asString (List.reverse_injective hp)
  simp only [List.cons.injEq, true_and] at hrest2
  have hss : s1 = s2 :=
    congrArg List.asString (List.reverse_injective hrest2)
  exact ⟨hss, hpp, hii⟩

/-! ### Chunk ids of a corpus -/

/-- Mapping a function of the index over `List.enum` is mapping it over
`List.range`. -/
theorem enum_map_fst {β γ : Type} (l : List β) (f : Nat → γ) :
    l.enum.map (fun ic => f ic.1) = (List.range l.length).map f := by
  rw [List.enum_eq_zip_range]
  rw [show (fun ic : Nat × β => f ic.1) = f ∘ Prod.fst from rfl, ← List.map_map]
  rw [List.map_fst_zip _ _ (by simp)]

/-- The chunk ids produced by `make_chunks`: for each page, one id per
chunk index below the page's chunk count. -/
theorem make_chunks_ids (dec : List Nat → String) (enc : String → List Nat)
    (pages : List Page) :
    (make_chunks dec enc pages).map (fun c => c.chunk_id) =
      pages.flatMap fun p =>
        (List.range (chunk_text dec enc p.text CHUNK_TOKENS CHUNK_OVERLAP).length).map
          (chunkId p.source p.page) := by
  simp only [make_chunks, List.map_flatMap, List.map_map]
  congr 1
  funext p
  exact enum_map_fst (chunk_text dec enc p.text CHUNK_TOKENS CHUNK_OVERLAP)
    (chunkId p.source p.page)

/-- C3 (amended): chunk-id uniqueness holds for every corpus of pages in
which no two pages carry the same `(source, page)` pair — equivalently,
no two distinct documents of the corpus share a file name: all
`chunk_id` values of `make_chunks` are then pairwise distinct. (The
unamended claim fails because the recursive search can return two files
with equal names in different folders; see the counterexample.) -/
theorem claim_C3_unique_ids (dec : List Nat → String) (enc : String → List Nat)
    (pages : List Page)
    (hp : pages.Pairwise fun p q => ¬(p.source = q.source ∧ p.page = q.page)) :
    ((make_chunks dec enc pages).map (fun c => c.chunk_id)).Nodup := by
  rw [make_chunks_ids]
  induction pages with
  | nil => simp
  | cons p t ih =>
    rw [List.flatMap_cons, List.nodup_append]
    obtain ⟨hhead, htail⟩ := List.pairwise_cons.mp hp
    refine ⟨?_, ih htail, ?_⟩
    · refine List.Nodup.map ?_ (List.nodup_range _)
      intro a b hab
      exact (chunkId_inj _ _ _ _ _ _ hab).2.2
    · intro x hx1 hx2
      simp only [List.mem_map, List.mem_range] at hx1
      obtain ⟨i, _, rfl⟩ := hx1
      simp only [List.mem_flatMap, List.mem_map, List.mem_range] at hx2
      obtain ⟨q, hq, j, _, hid⟩ := hx2
      have h3 := chunkId_inj _ _ _ _ _ _ hid.symm
      exact hhead q hq ⟨h3.1, h3.2.1⟩

/-! ### Association-list lemmas for the store model -/

/-- Looking up a collection right after setting it. -/
theorem lookup_setAssoc_self (name : String) (ps : List Passage) :
    ∀ l, List.lookup name (setAssoc name ps l) = some ps := by
  intro l
  induction l with
  | nil => simp [setAssoc, List.lookup]
  | cons hd t ih =>
    obtain ⟨m, qs⟩ := hd
    simp only [setAssoc]
    by_cases hm : m = name
    · rw [if_pos hm]
      simp [List.lookup]
    · rw [if_neg hm]
      have hb : (name == m) = false := beq_eq_false_iff_ne.mpr (Ne.symm hm)
      simpa [List.lookup, hb] using ih

/-- Setting one collection leaves lookups of every other name unchanged. -/
theorem lookup_setAssoc_other (name other : String) (ps : List Passage)
    (hne : other ≠ name) :
    ∀ l, List.lookup other (setAssoc name ps l) = List.lookup other l := by
  intro l
  induction l with
  | nil =>
    have hb : (other == name) = false := beq_eq_false_iff_ne.mpr hne
    simp [setAssoc, List.lookup, hb]
  | cons hd t ih =>
    obtain ⟨m, qs⟩ := hd
    simp only [setAssoc]
    by_cases hm : m = name
    · rw [if_pos hm]
      subst hm
      have hb : (other == m) = false := beq_eq_false_iff_ne.mpr hne
      simp [List.lookup, hb]
    · rw [if_neg hm]
      by_cases ho : other = m
      · subst ho
        simp [List.lookup]
      · have hb : (other == m) = false := beq_eq_false_iff_ne.mpr ho
        simpa [List.lookup, hb] using ih

/-- `Store.find` after `Store.set` of the same name. -/
theorem Store.find_set_self (s : Store) (name : String) (ps : List Passage) :
    (s.set name ps).find name = some ps :=
  lookup_setAssoc_self name ps s.colls

/-- `Store.find` after `Store.set` of a different name. -/
theorem Store.find_set_other (s : Store) (name other : String) (ps : List Passage)
    (hne : other ≠ name) :
    (s.set name ps).find other = s.find other :=
  lookup_setAssoc_other name other ps hne s.colls

/-! ### Lemmas about the batching embedder -/

/-- The batch partition concatenates back to the input. -/
theorem sliceBatches_flatten (bs : Nat) (hbs : 0 < bs) :
    ∀ (n : Nat) (texts : List String), texts.length ≤ n →
      (sliceBatches bs texts).flatten = texts := by
  intro n
  induction n with
  | zero =>
    intro texts h
    have ht : texts = [] := List.eq_nil_of_length_eq_zero (Nat.le_zero.mp h)
    subst ht
    rw [sliceBatches]
    simp
  | succ n ih =>
    intro texts h
    by_cases ht : texts = []
    · subst ht
      rw [sliceBatches]
      simp
    · rw [sliceBatches, dif_neg (by simp [ht]; omega)]
      simp only [List.flatten_cons]
      rw [ih (texts.drop bs) (by rw [List.length_drop]; omega)]
      exact List.take_append_drop bs texts

/-- The `__call__` loop applies the provider to each batch of the
partition and concatenates the results in order. -/
theorem embedderCall_eq_flatten {α : Type} (create : List String → List α) (bs : Nat)
    (hbs : 0 < bs) :
    ∀ (n : Nat) (texts : List String), texts.length ≤ n →
      embedderCall create bs texts = ((sliceBatches bs texts).map create).flatten := by
  intro n
  induction n with
  | zero =>
    intro texts h
    have ht : texts = [] := List.eq_nil_of_length_eq_zero (Nat.le_zero.mp h)
    subst ht
    rw [sliceBatches, embedderCall]
    simp
  | succ n ih =>
    intro texts h
    by_cases ht : texts = []
    · subst ht
      rw [sliceBatches, embedderCall]
      simp
    · rw [sliceBatches, embedderCall, dif_neg (by simp [ht]; omega),
        dif_neg (by simp [ht]; omega)]
      simp only [List.map_cons, List.flatten_cons]
      rw [ih (texts.drop bs) (by rw [List.length_drop]; omega)]

/-- Every batch of the partition is non-empty and no longer than the
batch size. -/
theorem sliceBatches_mem (bs : Nat) (hbs : 0 < bs) :
    ∀ (n : Nat) (texts : List String), texts.length ≤ n →
      ∀ b ∈ sliceBatches bs texts, b ≠ [] ∧ b.length ≤ bs := by
  intro n
  induction n with
  | zero =>
    intro texts h
    have ht : texts = [] := List.eq_nil_of_length_eq_zero (Nat.le_zero.mp h)
    subst ht
    rw [sliceBatches]
    simp
  | succ n ih =>
    intro texts h
    by_cases ht : texts = []
    · subst ht
      rw [sliceBatches]
      simp
    · rw [sliceBatches, dif_neg (by simp [ht]; omega)]
      intro b hb
      rcases List.mem_cons.mp hb with hb1 | hb2
      · subst hb1
        constructor
        · have hlen : 0 < texts.length := List.length_pos.mpr ht
          intro hemp
          have := congrArg List.length hemp
          rw [List.length_take, List.length_nil] at this
          omega
        · rw [List.length_take]
          exact min_le_left _ _
      · exact ih (texts.drop bs) (by rw [List.length_drop]; omega) b hb2

/-- Recurrence for the ceiling division counting the batches. -/
theorem ceil_div_rec (bs m : Nat) (hbs : 0 < bs) (hm : 0 < m) :
    (m + bs - 1) / bs = (m - bs + bs - 1) / bs + 1 := by
  rcases le_or_lt m bs with hle | hlt
  · have h1 : m - bs = 0 := by omega
    have h2 : m + bs - 1 = (m - 1) + bs := by omega
    rw [h1, h2, Nat.add_div_right _ hbs, Nat.div_eq_of_lt (by omega),
      Nat.div_eq_of_lt (by omega)]
  · have h2 : m + bs - 1 = (m - 1) + bs := by omega
    have h3 : m - bs + bs - 1 = m - 1 := by omega
    rw [h2, Nat.add_div_right _ hbs, h3]

/-- The number of batches is the ceiling of `len / bs`. -/
theorem sliceBatches_length (bs : Nat) (hbs : 0 < bs) :
    ∀ (n : Nat) (texts : List String), texts.length ≤ n →
      (sliceBatches bs texts).length = (texts.length + bs - 1) / bs := by
  intro n
  induction n with
  | zero =>
    intro texts h
    have ht : texts = [] := List.eq_nil_of_length_eq_zero (Nat.le_zero.mp h)
    subst ht
    rw [sliceBatches]
    simp [Nat.div_eq_of_lt (show bs - 1 < bs by omega)]
  | succ n ih =>
    intro texts h
    by_cases ht : texts = []
    · subst ht
      rw [sliceBatches]
      simp [Nat.div_eq_of_lt (show bs - 1 < bs by omega)]
    · rw [sliceBatches, dif_neg (by simp [ht]; omega)]
      simp only [List.length_cons]
      rw [ih (texts.drop bs) (by rw [List.length_drop]; omega), List.length_drop]
      rw [ceil_div_rec bs texts.length hbs (List.length_pos.mpr ht)]

/-! ### Claims -/

/-- C2 (code evidence): `chunk_text` contains no validation of the
chunking configuration at all — no `ChunkingConfigError` exists in the
source. With the degenerate configuration `chunk_tokens = overlap = 1`
on a two-token text, the loop never advances past `start = 0`
(`start = end - overlap = 1 - 1 = 0` in every iteration) and hence
diverges: it returns `none` for every amount of fuel, and `chunk_text`
falls back to its fuel-exhausted junk value. -/
theorem claim_C2_no_validation (dec : List Nat → String) :
    (∀ fuel chunks, chunkTextLoop dec [0, 0] 1 1 fuel 0 chunks = none) ∧
      chunk_text dec (fun _ => [0, 0]) "t" 1 1 = [] := by
  have hloop : ∀ fuel chunks, chunkTextLoop dec [0, 0] 1 1 fuel 0 chunks = none := by
    intro fuel
    induction fuel with
    | zero => intro chunks; rfl
    | succ fuel ih =>
      intro chunks
      rw [chunkTextLoop_succ]
      norm_num
      exact ih _
  refine ⟨hloop, ?_⟩
  show (chunkTextLoop dec [0, 0] 1 1 ([0, 0].length + 1) 0 []).getD [] = []
  rw [hloop]
  rfl

/-- Witness corpus for C3: two single-page files with distinct names. -/
theorem claim_C3_unique_ids_witness :
    ([({ text := "x", source := "a.pdf", path := "a.pdf", page := 1 } : Page),
        { text := "x", source := "b.pdf", path := "b.pdf", page := 1 }].Pairwise
      fun p q => ¬(p.source = q.source ∧ p.page = q.page)) ∧
    ((make_chunks (fun ts => if ts.isEmpty then "" else "x") (fun s => s.data.map Char.toNat)
        [{ text := "x", source := "a.pdf", path := "a.pdf", page := 1 },
          { text := "x", source := "b.pdf", path := "b.pdf", page := 1 }]).map
      (fun c => c.chunk_id)).Nodup :=
  ⟨by decide, claim_C3_unique_ids _ _ _ (by decide)⟩

/-- C3 counterexample: the recursive glob can return two PDF files with
the same file name `doc.pdf` in different folders; both produce a page
with `source = "doc.pdf"` and `page = 1`, and the two pages' first
chunks receive the same `chunk_id` `doc.pdf:p1:c0`, so the ids of this
loader-produced corpus are not pairwise distinct. -/
theorem claim_C3_counterexample :
    load_pdfs [{ name := "doc.pdf", path := "a/doc.pdf", pages := ["x"] },
        { name := "doc.pdf", path := "b/doc.pdf", pages := ["x"] }] =
      .ok [{ text := "x", source := "doc.pdf", path := "a/doc.pdf", page := 1 },
        { text := "x", source := "doc.pdf", path := "b/doc.pdf", page := 1 }] ∧
    ¬ ((make_chunks (fun ts => if ts.isEmpty then "" else "x") (fun s => s.data.map Char.toNat)
          [{ text := "x", source := "doc.pdf", path := "a/doc.pdf", page := 1 },
            { text := "x", source := "doc.pdf", path := "b/doc.pdf", page := 1 }]).map
        (fun c => c.chunk_id)).Nodup := by
  constructor
  · decide
  · decide

/-- C5 (amended): during a rebuild, the bare `except Exception: pass`
silently swallows every deletion failure, not only the benign
collection-not-found case: when `delete_collection` fails (for any
reason, e.g. `unavailable`), `get_collection` behaves exactly as the
same call without rebuild — the store is not modified by the attempted
deletion and no deletion error propagates to the caller. -/
theorem claim_C5_swallow (dec : List Nat → String) (enc : String → List Nat)
    (files : List PdfFile) (s : Store) (h : s.deleteRaises = true) :
    get_collection dec enc files s true = get_collection dec enc files s false := by
  unfold get_collection delete_collection
  rw [h]
  simp

/-- Witness for C5: a store whose delete operation fails. -/
theorem claim_C5_swallow_witness :
    ({ colls := [], deleteRaises := true } : Store).deleteRaises = true ∧
      get_collection (fun _ => "") (fun _ => []) [] { colls := [], deleteRaises := true } true =
        get_collection (fun _ => "") (fun _ => []) [] { colls := [], deleteRaises := true } false :=
  ⟨rfl, claim_C5_swallow _ _ _ _ rfl⟩

/-- C5 counterexample: with a populated collection and a store whose
delete operation fails with the non-`notFound` error `unavailable`, the
rebuild run of `get_collection` still succeeds with the old contents —
the deletion failure is suppressed instead of propagating to the caller
as the claim states. -/
theorem claim_C5_counterexample :
    delete_collection
        { colls := [(COLLECTION_NAME,
            [{ id := "doc.pdf:p1:c0", doc := "x", source := "doc.pdf", path := "a", page := 1 }])],
          deleteRaises := true } COLLECTION_NAME = .error .unavailable ∧
      (get_collection (fun _ => "") (fun _ => []) []
          { colls := [(COLLECTION_NAME,
              [{ id := "doc.pdf:p1:c0", doc := "x", source := "doc.pdf", path := "a", page := 1 }])],
            deleteRaises := true } true).result =
        .ok [{ id := "doc.pdf:p1:c0", doc := "x", source := "doc.pdf", path := "a", page := 1 }] := by
  constructor
  · decide
  · decide

/-- C9: whenever the collection already holds at least one passage and
`rebuild = false`, `get_collection` is a complete no-op regardless of the
corpus: it performs no document loading, no chunking and no `add` call
(the event list is empty), leaves the store unchanged, and returns the
stored passages as they are — so indexing twice without rebuild equals
indexing once. -/
theorem claim_C9_idempotent (dec : List Nat → String) (enc : String → List Nat)
    (files : List PdfFile) (s : Store) (items : List Passage)
    (hfind : s.find COLLECTION_NAME = some items) (hne : items ≠ []) :
    get_collection dec enc files s false = { store := s, events := [], result := .ok items } := by
  unfold get_collection get_or_create_collection
  simp [hfind, hne]

/-- Witness for C9: a store already holding one passage. -/
theorem claim_C9_idempotent_witness :
    ({ colls := [(COLLECTION_NAME,
          [{ id := "i", doc := "d", source := "s", path := "q", page := 1 }])],
        deleteRaises := false } : Store).find COLLECTION_NAME =
        some [{ id := "i", doc := "d", source := "s", path := "q", page := 1 }] ∧
      ([({ id := "i", doc := "d", source := "s", path := "q", page := 1 } : Passage)] ≠ []) ∧
      get_collection (fun _ => "") (fun _ => []) []
          { colls := [(COLLECTION_NAME,
              [{ id := "i", doc := "d", source := "s", path := "q", page := 1 }])],
            deleteRaises := false } false =
        { store := { colls := [(COLLECTION_NAME,
                         [{ id := "i", doc := "d", source := "s", path := "q", page := 1 }])],
                       deleteRaises := false },
          events := [],
          result := .ok [{ id := "i", doc := "d", source := "s", path := "q", page := 1 }] } :=
  ⟨by decide, by decide, claim_C9_idempotent _ _ _ _ _ (by decide) (by decide)⟩

/-- C10: for every configuration with `0 < chunk_tokens` and
`overlap < chunk_tokens`, the chunking loop terminates: the fuelled loop
completes within `len(tokens) + 1` iterations (so `chunk_text` returns
its value), and every iteration either has its window end at the total
token count (the final iteration) or strictly advances the window start
by exactly `chunk_tokens - overlap` tokens. -/
theorem claim_C10_termination (dec : List Nat → String) (enc : String → List Nat)
    (text : String) (ct ov : Nat) (hct : 0 < ct) (hov : ov < ct) :
    (∃ cs, chunkTextLoop dec (enc text) ct ov ((enc text).length + 1) 0 [] = some cs ∧
        chunk_text dec enc text ct ov = cs) ∧
      ∀ start, start < (enc text).length →
        min (start + ct) (enc text).length = (enc text).length ∨
          (start < min (start + ct) (enc text).length - ov ∧
            min (start + ct) (enc text).length - ov = start + (ct - ov)) := by
  constructor
  · have h := chunkTextLoop_isSome dec (enc text) ct ov hov ((enc text).length + 1) 0 []
      (by omega)
    obtain ⟨cs, hcs⟩ := Option.isSome_iff_exists.mp h
    refine ⟨cs, hcs, ?_⟩
    show (chunkTextLoop dec (enc text) ct ov ((enc text).length + 1) 0 []).getD [] = cs
    rw [hcs]
    rfl
  · intro start hstart
    by_cases he : min (start + ct) (enc text).length = (enc text).length
    · exact Or.inl he
    · right
      omega

/-- Witness for C10: three tokens, `chunk_tokens = 2`, `overlap = 1`. -/
theorem claim_C10_termination_witness :
    (0 < 2 ∧ 1 < 2) ∧
      (∃ cs, chunkTextLoop (fun _ => "x") ((fun _ : String => [0, 0, 0]) "t") 2 1
          (((fun _ : String => [0, 0, 0]) "t").length + 1) 0 [] = some cs ∧
        chunk_text (fun _ => "x") (fun _ : String => [0, 0, 0]) "t" 2 1 = cs) :=
  ⟨⟨by decide, by decide⟩,
    (claim_C10_termination (fun _ => "x") (fun _ : String => [0, 0, 0]) "t" 2 1
      (by decide) (by decide)).1⟩

/-- C8: for every input list and positive batch size, the embedder's
`__call__` issues one provider call per batch of the contiguous
partition into `ceil(n / batch_size)` batches of at most `batch_size`
texts each, and concatenates the per-batch results in input order; when
the provider returns one vector per text in call order (`create xs =
xs.map f`), the result is one vector per input text in input order. -/
theorem claim_C8_batching {α : Type} (create : List String → List α) (f : String → α)
    (batch_size : Nat) (texts : List String) (hbs : 0 < batch_size)
    (hcreate : ∀ xs, create xs = xs.map f) :
    embedderCall create batch_size texts =
        ((sliceBatches batch_size texts).map create).flatten ∧
      (sliceBatches batch_size texts).flatten = texts ∧
      (∀ b ∈ sliceBatches batch_size texts, b ≠ [] ∧ b.length ≤ batch_size) ∧
      (sliceBatches batch_size texts).length =
        (texts.length + batch_size - 1) / batch_size ∧
      embedderCall create batch_size texts = texts.map f := by
  refine ⟨embedderCall_eq_flatten create batch_size hbs texts.length texts le_rfl,
    sliceBatches_flatten batch_size hbs texts.length texts le_rfl,
    sliceBatches_mem batch_size hbs texts.length texts le_rfl,
    sliceBatches_length batch_size hbs texts.length texts le_rfl, ?_⟩
  have hc : create = fun xs => xs.map f := funext hcreate
  rw [embedderCall_eq_flatten create batch_size hbs texts.length texts le_rfl, hc]
  rw [show ((sliceBatches batch_size texts).map fun xs => xs.map f) =
      (sliceBatches batch_size texts).map (List.map f) from rfl]
  rw [← List.map_flatten, sliceBatches_flatten batch_size hbs texts.length texts le_rfl]

/-- Witness for C8: three texts embedded with batch size 2. -/
theorem claim_C8_batching_witness :
    (0 < 2 ∧ ∀ xs : List String, xs.map String.length = xs.map String.length) ∧
      embedderCall (fun xs => xs.map String.length) 2 ["aa", "b", "ccc"] =
        ["aa", "b", "ccc"].map String.length :=
  ⟨⟨by decide, fun _ => rfl⟩,
    (claim_C8_batching (fun xs => xs.map String.length) String.length 2 ["aa", "b", "ccc"]
      (by decide) (fun _ => rfl)).2.2.2.2⟩

/-- C7: a non-empty text whose token count is below `chunk_tokens` (and
which the tokenizer round-trips to a non-whitespace string) produces
exactly one window, `[0, len)`, covering the whole text: `chunk_text`
returns the single stripped decode of the full token list. -/
theorem claim_C7_short_text (dec : List Nat → String) (enc : String → List Nat)
    (text : String) (ct ov : Nat)
    (hne : enc text ≠ []) (hlt : (enc text).length < ct)
    (hdec : pyStrip (dec (enc text)) ≠ "") :
    chunkSpans (enc text).length ct ov ((enc text).length + 1) 0 [] =
        some [(0, (enc text).length)] ∧
      chunk_text dec enc text ct ov = [pyStrip (dec (enc text))] := by
  have hlen : 0 < (enc text).length := List.length_pos.mpr hne
  have hmin : min (0 + ct) (enc text).length = (enc text).length := by omega
  have hwc : windowChunk dec (enc text) (0, min (0 + ct) (enc text).length) =
      pyStrip (dec (enc text)) := by
    rw [windowChunk, hmin]
    simp
  constructor
  · rw [chunkSpans_succ, if_pos hlen, if_pos hmin, hmin]
    simp
  · show (chunkTextLoop dec (enc text) ct ov ((enc text).length + 1) 0 []).getD [] =
      [pyStrip (dec (enc text))]
    rw [chunkTextLoop_succ, if_pos hlen]
    simp only [hwc]
    rw [if_neg hdec, if_pos hmin]
    simp

/-- Witness for C7: one token, `chunk_tokens = 2`. -/
theorem claim_C7_short_text_witness :
    (((fun _ : String => [5]) "t") ≠ [] ∧ (((fun _ : String => [5]) "t")).length < 2 ∧
        pyStrip ((fun _ : List Nat => "x") ((fun _ : String => [5]) "t")) ≠ "") ∧
      chunk_text (fun _ : List Nat => "x") (fun _ : String => [5]) "t" 2 0 =
        [pyStrip ((fun _ : List Nat => "x") ((fun _ : String => [5]) "t"))] :=
  ⟨⟨by decide, by decide, by decide⟩,
    (claim_C7_short_text (fun _ => "x") (fun _ => [5]) "t" 2 0
      (by decide) (by decide) (by decide)).2⟩

/-- C4 (amended): with `rebuild = false`, an absent-or-empty collection
and an empty corpus folder, indexing fails with the distinguishable
`noPdfsFound` error, performs no `add` (the only event is the failed
load), and leaves every other collection untouched — but, contrary to
the original claim, the named collection is created empty by
`get_or_create_collection` *before* the failure, so the store's
collection-existence state is not necessarily the same as before the
failed operation (see the counterexample). -/
theorem claim_C4_empty_corpus (dec : List Nat → String) (enc : String → List Nat)
    (s : Store) (hempty : (s.find COLLECTION_NAME).getD [] = []) :
    (get_collection dec enc [] s false).result = .error .noPdfsFound ∧
      (get_collection dec enc [] s false).events = [.load] ∧
      (get_collection dec enc [] s false).store =
        (if (s.find COLLECTION_NAME).isSome then s else s.set COLLECTION_NAME []) ∧
      (get_collection dec enc [] s false).store.find COLLECTION_NAME = some [] ∧
      ∀ other, other ≠ COLLECTION_NAME →
        (get_collection dec enc [] s false).store.find other = s.find other := by
  by_cases hsome : (s.find COLLECTION_NAME).isSome
  · obtain ⟨v, hv⟩ := Option.isSome_iff_exists.mp hsome
    have hv0 : v = [] := by
      rw [hv] at hempty
      simpa using hempty
    subst hv0
    have hrun : get_collection dec enc [] s false =
        { store := s, events := [Event.load], result := .error .noPdfsFound } := by
      unfold get_collection get_or_create_collection load_pdfs
      simp [hv]
    rw [hrun]
    refine ⟨rfl, rfl, by rw [if_pos hsome], hv, fun other hother => rfl⟩
  · have hnone : s.find COLLECTION_NAME = none := Option.not_isSome_iff_eq_none.mp hsome
    have hrun : get_collection dec enc [] s false =
        { store := s.set COLLECTION_NAME [], events := [Event.load],
          result := .error .noPdfsFound } := by
      unfold get_collection get_or_create_collection load_pdfs
      simp [hnone, Store.find_set_self]
    rw [hrun]
    refine ⟨rfl, rfl, by rw [if_neg hsome], Store.find_set_self s COLLECTION_NAME [],
      fun other hother => Store.find_set_other s COLLECTION_NAME other [] hother⟩

/-- Witness for C4 (amended): a store with no collections at all. -/
theorem claim_C4_empty_corpus_witness :
    ((({ colls := [], deleteRaises := false } : Store).find COLLECTION_NAME).getD [] = []) ∧
      (get_collection (fun _ => "") (fun _ => []) []
          { colls := [], deleteRaises := false } false).result = .error .noPdfsFound :=
  ⟨by decide,
    (claim_C4_empty_corpus (fun _ => "") (fun _ => [])
      { colls := [], deleteRaises := false } (by decide)).1⟩

/-- C4 counterexample: starting from a store with no collections, the
failed indexing run over an empty corpus raises the empty-corpus error
but leaves the store *changed* — the named collection now exists (empty)
because `get_or_create_collection` runs before `load_pdfs` — refuting
"the state of the vector store (including whether the named collection
exists) is the same after the failed indexing operation as before". -/
theorem claim_C4_counterexample :
    (get_collection (fun _ => "") (fun _ => []) []
        { colls := [], deleteRaises := false } false).result = .error .noPdfsFound ∧
      (get_collection (fun _ => "") (fun _ => []) []
          { colls := [], deleteRaises := false } false).store ≠
        { colls := [], deleteRaises := false } ∧
      (get_collection (fun _ => "") (fun _ => []) []
          { colls := [], deleteRaises := false } false).store.find COLLECTION_NAME =
        some [] := by
  refine ⟨by decide, by decide, by decide⟩

/-- C6: under a valid configuration (`overlap < chunk_tokens`), the
windows of the chunking loop overlap correctly: `chunk_text` is exactly
the stripped decode of each recorded window (empty results dropped), and
for any two consecutive windows `i`, `i + 1` that both reach the full
`chunk_tokens` length, the last `overlap` tokens of window `i` are the
first `overlap` tokens of window `i + 1`. -/
theorem claim_C6_overlap (dec : List Nat → String) (enc : String → List Nat)
    (text : String) (ct ov : Nat) (hov : ov < ct)
    (S : List (Nat × Nat))
    (hS : chunkSpans (enc text).length ct ov ((enc text).length + 1) 0 [] = some S)
    (i : Nat) (hi1 : i < S.length) (hi2 : i + 1 < S.length)
    (s1 e1 s2 e2 : Nat)
    (hg1 : S.get ⟨i, hi1⟩ = (s1, e1)) (hg2 : S.get ⟨i + 1, hi2⟩ = (s2, e2))
    (hf1 : e1 - s1 = ct) (hf2 : e2 - s2 = ct) :
    chunk_text dec enc text ct ov =
        (S.map (windowChunk dec (enc text))).filter (fun c => !(c == "")) ∧
      (((enc text).drop s1).take ct).drop (ct - ov) =
        (((enc text).drop s2).take ct).take ov := by
  constructor
  · show (chunkTextLoop dec (enc text) ct ov ((enc text).length + 1) 0 []).getD [] = _
    have hlink := chunkTextLoop_eq_spans dec (enc text) ct ov ((enc text).length + 1) 0 []
    simp only [List.map_nil, List.filter_nil] at hlink
    rw [hlink, hS]
    rfl
  · obtain ⟨hchain, hshape⟩ := chunkSpans_invariant (enc text).length ct ov
      ((enc text).length + 1) 0 [] S hS List.chain'_nil (by simp) (by simp)
    have h0 : (S.get ⟨i + 1, hi2⟩).1 = (S.get ⟨i, hi1⟩).2 - ov :=
      List.chain'_iff_get.mp hchain i (by omega)
    rw [hg1, hg2] at h0
    have hm := hshape (s1, e1) (by rw [← hg1]; exact S.get_mem _ _)
    have hsh1 : e1 = min (s1 + ct) (enc text).length := by simpa using hm
    have he1 : e1 = s1 + ct := by omega
    have hs2 : s2 = s1 + (ct - ov) := by
      simp only at h0
      omega
    rw [List.drop_take, List.drop_drop, List.take_take]
    rw [show ct - (ct - ov) = ov from by omega, min_eq_left (le_of_lt hov), hs2]

/-- Witness for C6: three tokens, `chunk_tokens = 2`, `overlap = 1`; the
loop records the windows `[0,2)` and `[1,3)`, both of full length. -/
theorem claim_C6_overlap_witness :
    (chunkSpans (((fun _ : String => [7, 8, 9]) "t")).length 2 1
          ((((fun _ : String => [7, 8, 9]) "t")).length + 1) 0 [] =
        some [(0, 2), (1, 3)] ∧
      ([(0, 2), (1, 3)].get ⟨0, by decide⟩ = ((0 : Nat), (2 : Nat))) ∧
      ([(0, 2), (1, 3)].get ⟨1, by decide⟩ = ((1 : Nat), (3 : Nat)))) ∧
      ((((fun _ : String => [7, 8, 9]) "t").drop 0).take 2).drop (2 - 1) =
        ((((fun _ : String => [7, 8, 9]) "t").drop 1).take 2).take 1 :=
  ⟨⟨by decide, by decide, by decide⟩,
    (claim_C6_overlap (fun _ => "x") (fun _ : String => [7, 8, 9]) "t" 2 1 (by decide)
      [(0, 2), (1, 3)] (by decide) 0 (by decide) (by decide) 0 2 1 3
      (by decide) (by decide) (by decide) (by decide)).2⟩

/-- C1: for a page whose text tokenizes to 1500 tokens (and whose three
windows survive the post-decode strip), chunking with
`chunk_tokens = 700` and `overlap = 120` records exactly the three token
windows `[0,700)`, `[580,1280)`, `[1160,1500)`; `chunk_text` returns the
three corresponding decoded chunks, and for source name `doc.pdf` and
page number 1 their chunk ids are `doc.pdf:p1:c0`, `doc.pdf:p1:c1`,
`doc.pdf:p1:c2`. -/
theorem claim_C1_example_scenario (dec : List Nat → String) (enc : String → List Nat)
    (text path : String) (hlen : (enc text).length = 1500)
    (h1 : windowChunk dec (enc text) (0, 700) ≠ "")
    (h2 : windowChunk dec (enc text) (580, 1280) ≠ "")
    (h3 : windowChunk dec (enc text) (1160, 1500) ≠ "") :
    chunkSpans (enc text).length 700 120 ((enc text).length + 1) 0 [] =
        some [(0, 700), (580, 1280), (1160, 1500)] ∧
      chunk_text dec enc text 700 120 =
        [windowChunk dec (enc text) (0, 700), windowChunk dec (enc text) (580, 1280),
          windowChunk dec (enc text) (1160, 1500)] ∧
      (make_chunks dec enc
          [{ text := text, source := "doc.pdf", path := path, page := 1 }]).map
        (fun c => c.chunk_id) = ["doc.pdf:p1:c0", "doc.pdf:p1:c1", "doc.pdf:p1:c2"] := by
  have hspans : chunkSpans (enc text).length 700 120 ((enc text).length + 1) 0 [] =
      some [(0, 700), (580, 1280), (1160, 1500)] := by
    rw [hlen]
    decide
  have hct : chunk_text dec enc text 700 120 =
      [windowChunk dec (enc text) (0, 700), windowChunk dec (enc text) (580, 1280),
        windowChunk dec (enc text) (1160, 1500)] := by
    show (chunkTextLoop dec (enc text) 700 120 ((enc text).length + 1) 0 []).getD [] = _
    have hlink := chunkTextLoop_eq_spans dec (enc text) 700 120 ((enc text).length + 1) 0 []
    simp only [List.map_nil, List.filter_nil] at hlink
    rw [hlink, hspans]
    simp [h1, h2, h3]
  refine ⟨hspans, hct, ?_⟩
  rw [make_chunks_ids]
  simp only [List.flatMap_cons, List.flatMap_nil, List.append_nil]
  rw [show CHUNK_TOKENS = 700 from rfl, show CHUNK_OVERLAP = 120 from rfl, hct]
  simp only [List.length_cons, List.length_nil]
  decide

set_option maxRecDepth 10000 in
/-- Witness for C1: an encoder producing 1500 tokens and a decoder that
returns `"x"` on every non-empty window. -/
theorem claim_C1_example_scenario_witness :
    (((fun _ : String => List.replicate 1500 0) "t").length = 1500 ∧
        windowChunk (fun ts => if ts.isEmpty then "" else "x")
          ((fun _ : String => List.replicate 1500 0) "t") (0, 700) ≠ "" ∧
        windowChunk (fun ts => if ts.isEmpty then "" else "x")
          ((fun _ : String => List.replicate 1500 0) "t") (580, 1280) ≠ "" ∧
        windowChunk (fun ts => if ts.isEmpty then "" else "x")
          ((fun _ : String => List.replicate 1500 0) "t") (1160, 1500) ≠ "") ∧
      (make_chunks (fun ts => if ts.isEmpty then "" else "x")
          (fun _ : String => List.replicate 1500 0)
          [{ text := "t", source := "doc.pdf", path := "a/doc.pdf", page := 1 }]).map
        (fun c => c.chunk_id) = ["doc.pdf:p1:c0", "doc.pdf:p1:c1", "doc.pdf:p1:c2"] :=
  ⟨⟨by simp, by decide, by decide, by decide⟩,
    (claim_C1_example_scenario (fun ts => if ts.isEmpty then "" else "x")
      (fun _ : String => List.replicate 1500 0) "t" "a/doc.pdf"
      (by simp) (by decide) (by decide) (by decide)).2.2⟩
